import Mathlib

/-!
Verification development for the modular C shell: a shallow embedding of the
pipeline data model (`command.h`), the executor (`command.c`), the token
parser (`utils.c` / `parser.h`) and the history list (`builtins.c`), together
with theorems settling the specification claims about them.

Conventions of the embedding:
* C `NULL` pointers for strings become `Option String` (`none` = NULL).
* File descriptors are natural numbers; 0, 1, 2 are the standard streams.
* The linked `CommandChain` becomes a `List Command`; the `next` pointers and
  the head/tail bookkeeping of `addCommandToChain` are the list append.
* System calls (`pipe`, `open`, `glob`) are modelled by an explicit oracle
  (`Sys`) plus a state (`PState`) that allocates fresh descriptors in
  increasing order starting from 3 (as the OS hands out lowest free fds) and
  records an event trace: descriptors opened, `open` invocations with the
  exact (possibly NULL) pathname argument, and the release calls
  (`cleanUpCommandChain` / `cleanUpCommand` / `cleanUpSimpleCommand`)
  performed on error paths.  `close` during parsing would append a
  `closedFD` event; the C cleanup helpers free memory but close nothing,
  which the embedding mirrors by emitting no `closedFD` events there.
* Handlers (`execute` function pointers) are resolved to a `Handler` tag by
  `getExecutionFunction` exactly as the registry in `builtins.c` does; at
  execution time the status a handler reports is an oracle
  `run : SimpleCommand → Int`, so theorems quantify over every possible
  handler behaviour.
-/

/-- MAX_STRING_LENGTH from `utils.h`. -/
def MAX_STRING_LENGTH : Nat := 1024

/-- The COPY macro from `utils.h`: `strndup(str, MAX_STRING_LENGTH)`, i.e. the
string truncated to its first 1024 characters.  (The NULL case of the macro is
handled at each call site via `Option.map COPY`.) -/
def COPY (s : String) : String := ⟨s.data.take MAX_STRING_LENGTH⟩

/-- The handler tags of the builtin registry in `builtins.c`;
`executeProcess` is the fallback external-process handler. -/
inductive Handler where
  | cd
  | pwd
  | exitShell
  | history
  | prompt
  | executeProcess
deriving DecidableEq, Repr

/-- `getExecutionFunction` from `builtins.c`: linear scan of the registry,
falling back to `executeProcess`. -/
def getExecutionFunction (commandName : String) : Handler :=
  if commandName = "cd" then .cd
  else if commandName = "pwd" then .pwd
  else if commandName = "exit" then .exitShell
  else if commandName = "history" then .history
  else if commandName = "prompt" then .prompt
  else .executeProcess

/-- `SimpleCommand` from `command.h`.  `args` is the C argument array
including its trailing NULL sentinel slot (`none`); `execute` is the resolved
handler. -/
structure SimpleCommand where
  commandName : Option String
  args : List (Option String)
  argc : Nat
  inputFD : Nat
  outputFD : Nat
  stderrFD : Nat
  noWait : Bool
  pid : Int
  execute : Option Handler
deriving DecidableEq, Repr

/-- `initSimpleCommand` from `command.c` (the allocation itself is assumed to
succeed; the C function returns NULL only on malloc failure). -/
def initSimpleCommand : SimpleCommand :=
  { commandName := none
    args := []
    argc := 0
    inputFD := 0
    outputFD := 1
    stderrFD := 2
    noWait := false
    pid := -1
    execute := none }

/-- `Command` from `command.h`; the `next` pointer lives in the surrounding
`List Command` of the chain. -/
structure Command where
  simpleCommands : List SimpleCommand
  nSimpleCommands : Nat
  background : Bool
  chainingOperator : Option String
deriving DecidableEq, Repr

/-- `initCommand` from `command.c`. -/
def initCommand : Command :=
  { simpleCommands := []
    nSimpleCommands := 0
    background := false
    chainingOperator := none }

/-- `addSimpleCommand` from `command.c`: append to the realloc'd array and
bump the count (realloc assumed to succeed; the parser ignores the return
value anyway). -/
def addSimpleCommand (command : Command) (simpleCommand : SimpleCommand) : Command :=
  { command with
      simpleCommands := command.simpleCommands ++ [simpleCommand]
      nSimpleCommands := command.nSimpleCommands + 1 }

/-- `pushArgs` from `command.c`: realloc the argument array to `argc + 2`
slots, store `COPY arg` at index `argc`, store the NULL sentinel at
`argc + 1`, bump `argc`, and set the command name from the copy when this
was the first argument (`argc == 1` after the increment). -/
def pushArgs (arg : String) (simpleCommand : SimpleCommand) : SimpleCommand :=
  let grown := simpleCommand.args ++
    List.replicate (simpleCommand.argc + 2 - simpleCommand.args.length) none
  let stored := (grown.set simpleCommand.argc (some (COPY arg))).set
    (simpleCommand.argc + 1) none
  { simpleCommand with
      args := stored
      argc := simpleCommand.argc + 1
      commandName :=
        if simpleCommand.argc + 1 = 1 then some (COPY arg)
        else simpleCommand.commandName }

/-- The `if (command->background) simpleCommand->noWait = 1;` mutation at the
top of the executor loop in `executeCommand`. -/
def adjustNoWait (background : Bool) (sc : SimpleCommand) : SimpleCommand :=
  if background then { sc with noWait := true } else sc

/-- The descriptor-closing epilogue of one executor iteration in
`executeCommand` (`command.c` lines 240-244): close `inputFD` when it is not
stdin and `outputFD` when it is not stdout.  `stderrFD` is never closed. -/
def closeList (sc : SimpleCommand) : List Nat :=
  (if sc.inputFD ≠ 0 then [sc.inputFD] else []) ++
    (if sc.outputFD ≠ 1 then [sc.outputFD] else [])

/-- The loop of `executeCommand` over the pipeline stages, started at stage
index `i`.  Returns the status together with the indices of the stages whose
handler was invoked and the descriptors closed, in order.  A stage with no
command name yields `-1`; a non-zero handler status is returned at once,
before any descriptor of that stage is closed. -/
def execSimples (run : SimpleCommand → Int) (background : Bool) :
    Nat → List SimpleCommand → Int × List Nat × List Nat
  | _, [] => (0, [], [])
  | i, sc :: rest =>
    let sc := adjustNoWait background sc
    match sc.commandName with
    | none => (-1, [], [])
    | some _ =>
      let status := run sc
      if status ≠ 0 then (status, [i], [])
      else
        let r := execSimples run background (i + 1) rest
        (r.1, i :: r.2.1, closeList sc ++ r.2.2)

/-- `executeCommand` from `command.c`: reject an empty pipeline with `-1`
(the `!command->simpleCommands || command->nSimpleCommands == 0` check, under
the constructor invariant `nSimpleCommands = simpleCommands.length`), then
run the stage loop. -/
def executeCommand (run : SimpleCommand → Int) (command : Command) :
    Int × List Nat × List Nat :=
  if command.simpleCommands.isEmpty then (-1, [], [])
  else execSimples run command.background 0 command.simpleCommands

/-- The chain loop of `executeCommandChain`, carrying the command index `k`
and the status of the most recently executed command (`lastStatus`, initially
0).  Also returns the indices of the commands that were executed. -/
def execChainAux (run : SimpleCommand → Int) :
    Nat → Int → List Command → Int × List Nat
  | _, lastStatus, [] => (lastStatus, [])
  | k, _, c :: rest =>
    let s := (executeCommand run c).1
    let r := execChainAux run (k + 1) s rest
    (r.1, k :: r.2)

/-- `executeCommandChain` from `command.c` on a non-NULL chain: run every
command in order, keeping only the status of the most recent one. -/
def executeCommandChain (run : SimpleCommand → Int) (chain : List Command) :
    Int × List Nat :=
  execChainAux run 0 0 chain

/-- A one-stage helper: a default SimpleCommand carrying just a name. -/
def namedSC (n : String) : SimpleCommand :=
  { initSimpleCommand with commandName := some n }

/-- Concrete two-stage pipeline fixture: `a | b`. -/
def c1cmd : Command :=
  { simpleCommands := [namedSC "a", namedSC "b"]
    nSimpleCommands := 2
    background := false
    chainingOperator := none }

/-- Concrete handler-status oracle: the handler of `a` reports 7, all others
report 0. -/
def c1run : SimpleCommand → Int :=
  fun sc => if sc.commandName = some "a" then 7 else 0

/-- One-command wrapper used by the chain fixtures. -/
def soloCmd (n : String) (op : Option String) : Command :=
  { simpleCommands := [namedSC n]
    nSimpleCommands := 1
    background := false
    chainingOperator := op }

/-- Concrete chain fixture: `badcmd ; echo`. -/
def c2chain : List Command := [soloCmd "badcmd" (some ";"), soloCmd "echo" none]

/-- Handler-status oracle for the chain fixture: `badcmd` reports 3, all
other handlers report 0. -/
def c2run : SimpleCommand → Int :=
  fun sc => if sc.commandName = some "badcmd" then 3 else 0

/-- Fixture for C4: a one-stage Command whose stage has the non-standard
descriptors `outputFD = 5` and `stderrFD = 7`. -/
def c4cmd : Command :=
  { simpleCommands :=
      [{ initSimpleCommand with
          commandName := some "x"
          outputFD := 5
          stderrFD := 7 }]
    nSimpleCommands := 1
    background := false
    chainingOperator := none }

/-- The walk of `get_command` in `builtins.c`: `for (; curr && ctr != index;
curr = curr->next, ctr++); return curr->command;`.  Reaching the end of the
list (`curr == NULL`) and then evaluating `curr->command` is a NULL-pointer
dereference, modelled as `Except.error ()`. -/
def getCmdLoop (index : Nat) : List String → Nat → Except Unit String
  | [], _ => .error ()
  | c :: rest, ctr => if ctr = index then .ok c else getCmdLoop index rest (ctr + 1)

/-- `get_command` from `builtins.c`: the guard `index > list->size ||
!list->head` returns NULL (`.ok none`), otherwise the walk starts at the head
with `ctr = 1`.  The history list is modelled by its stored lines in order,
with `size` equal to the list length as maintained by `add_to_history`. -/
def get_command (hist : List String) (index : Nat) : Except Unit (Option String) :=
  if index > hist.length ∨ hist = [] then .ok none
  else (getCmdLoop index hist 1).map some

/-- A 1025-character string, exceeding MAX_STRING_LENGTH. -/
def bigArg : String := ⟨List.replicate 1025 'a'⟩

/-- Building a SimpleCommand by a sequence of `pushArgs` calls on a fresh
SimpleCommand, as the parser does. -/
def buildSC (ts : List String) : SimpleCommand :=
  ts.foldl (fun s a => pushArgs a s) initSimpleCommand

/-- Open modes used by `parseTokens` (`O_RDONLY`, `O_WRONLY|O_CREAT|O_TRUNC`,
`O_WRONLY|O_CREAT|O_APPEND`, all at 0644 where applicable). -/
inductive OpenMode where
  | readOnly
  | truncCreate
  | appendCreate
deriving DecidableEq, Repr

/-- Observable events of a `parseTokens` run: descriptor allocations,
`open(2)` invocations with the exact pathname argument (`none` = the NULL
pointer), descriptor closes (the parser and its cleanup helpers never emit
one), and the cleanup calls on error paths. -/
inductive Ev where
  | openCalled (name : Option String) (mode : OpenMode)
  | openedFD (fd : Nat)
  | closedFD (fd : Nat)
  | freeChain
  | freeCommand
  | freeSimple
deriving DecidableEq, Repr

/-- Parser-side OS state: the next free descriptor number (3 upward, as the
kernel hands out lowest-free), the pipes created so far as (read end, write
end) pairs, and the event trace. -/
structure PState where
  nextFD : Nat
  pipes : List (Nat × Nat)
  trace : List Ev
deriving DecidableEq, Repr

/-- Initial parser-side OS state. -/
def initPState : PState := { nextFD := 3, pipes := [], trace := [] }

/-- Oracle for the fallible system calls made during parsing: whether the
k-th `pipe(2)` call succeeds, whether `open(2)` on a given (non-NULL) path
and mode succeeds, and what `glob(3)` with GLOB_NOCHECK|GLOB_TILDE returns
(`none` = a non-zero `glob` return; with GLOB_NOCHECK a successful call
returns at least the pattern itself). -/
structure Sys where
  pipeOk : Nat → Bool
  openOk : String → OpenMode → Bool
  globResult : String → Option (List String)

/-- `pipe(pipeFD)` in the pipe branch of `parseTokens`: on success allocate
the two lowest free descriptors (read end first), record the pair and the
allocation events. -/
def pipeCall (sys : Sys) (st : PState) : Option (Nat × Nat) × PState :=
  if sys.pipeOk st.pipes.length then
    let r := st.nextFD
    let w := st.nextFD + 1
    (some (r, w),
      { st with
          nextFD := st.nextFD + 2
          pipes := st.pipes ++ [(r, w)]
          trace := st.trace ++ [.openedFD r, .openedFD w] })
  else (none, st)

/-- An `open(fileNameToken, …)` call in the redirection branches of
`parseTokens`.  The pathname argument is recorded verbatim; a NULL pathname
(`none`) fails (Linux returns -1/EFAULT), a non-NULL one succeeds iff the
oracle says so, allocating the lowest free descriptor. -/
def openCall (sys : Sys) (st : PState) (name : Option String) (mode : OpenMode) :
    Option Nat × PState :=
  let st := { st with trace := st.trace ++ [.openCalled name mode] }
  match name with
  | none => (none, st)
  | some f =>
    if sys.openOk f mode then
      (some st.nextFD,
        { st with
            nextFD := st.nextFD + 1
            trace := st.trace ++ [.openedFD st.nextFD] })
    else (none, st)

/-- The IGNORE macro from `parser.h`: spaces, tabs, newlines and empty
tokens. -/
def ignorable (t : String) : Prop :=
  t = " " ∨ t = "\t" ∨ t = "\n" ∨ t = ""

instance decidableIgnorable : DecidablePred ignorable := fun t => by
  unfold ignorable
  infer_instance

/-- `removeQuotes` from `utils.c`: strip one layer of surrounding quotes
(matching double or matching single), otherwise return the string
unchanged. -/
def removeQuotes (s : String) : String :=
  if s.length < 2 then s
  else if (s.data.head? = some '"' ∧ s.data.getLast? = some '"') ∨
      (s.data.head? = some '\'' ∧ s.data.getLast? = some '\'') then
    ⟨(s.data.drop 1).dropLast⟩
  else s

/-- The filename search of the redirection branches
(`do { fileNameToken = tokens[++currentIndexInTokens]; } while
(IGNORE(fileNameToken));`) on the tokens after the operator: skip ignorable
tokens; reaching the NULL terminator yields `none` (the loop stops there
because IGNORE(NULL) is false).  Also returns the tokens after the consumed
ones. -/
def scanFile : List String → Option String × List String
  | [] => (none, [])
  | t :: rest => if ignorable t then scanFile rest else (some t, rest)

/-- The events of `cleanUpSimpleCommand` (`command.c`): the strings and the
struct are freed; no descriptor is closed. -/
def cleanUpSimpleCommandEv : List Ev := [.freeSimple]

/-- The events of `cleanUpCommand` (`command.c`): every contained
SimpleCommand is freed, then the command's array and operator string; no
descriptor is closed. -/
def cleanUpCommandEv (cmd : Command) : List Ev :=
  (cmd.simpleCommands.map fun _ => Ev.freeSimple) ++ [.freeCommand]

/-- The events of `cleanUpCommandChain` (`command.c`): each chained command
is cleaned and freed, then the chain struct; no descriptor is closed. -/
def cleanUpCommandChainEv (chain : List Command) : List Ev :=
  (chain.map cleanUpCommandEv).flatten ++ [.freeChain]

/-- The full-cleanup error epilogue used by most parse-error branches:
`cleanUpCommandChain(chain); cleanUpCommand(command);
cleanUpSimpleCommand(simpleCommand);`. -/
def failAll (st : PState) (chain : List Command) (cmd : Command) : PState :=
  { st with trace := st.trace ++ cleanUpCommandChainEv chain ++
      cleanUpCommandEv cmd ++ cleanUpSimpleCommandEv }

/-- The chain-only error epilogue of the input- and stderr-redirection
open-failure branches: `cleanUpCommandChain(chain);` alone. -/
def failChainOnly (st : PState) (chain : List Command) : PState :=
  { st with trace := st.trace ++ cleanUpCommandChainEv chain }

/-- Result of the inner token loop of `parseTokens` (one Command segment):
either a parse error (with the post-cleanup state), or the built command, the
current unfinished SimpleCommand, the unconsumed tokens (empty or beginning
with the chaining operator that ended the segment), and the state. -/
inductive InnerOut where
  | fail (st : PState)
  | ok (cmd : Command) (sc : SimpleCommand) (rest : List String) (st : PState)
deriving DecidableEq, Repr

/-- The inner token loop of `parseTokens` (`utils.c` lines 191-418),
consuming tokens for one Command until a chaining operator or the end.  The
`chain` argument is the chain built so far, needed only for the cleanup
events of the error branches.  The fuel argument only serves termination:
every iteration consumes at least one token, so any fuel exceeding the token
count is enough. -/
def parseCmd (sys : Sys) (chain : List Command) :
    Nat → PState → Command → SimpleCommand → List String → InnerOut
  | 0, st, _, _, _ => .fail st
  | _ + 1, st, cmd, sc, [] => .ok cmd sc [] st
  | fuel + 1, st, cmd, sc, t :: rest =>
    if t = "&" ∨ t = ";" then .ok cmd sc (t :: rest) st
    else if t = "|" then
      match sc.commandName with
      | none => .fail (failAll st chain cmd)
      | some name =>
        if sc.outputFD ≠ 1 then .fail (failAll st chain cmd)
        else
          match pipeCall sys st with
          | (none, st) => .fail (failAll st chain cmd)
          | (some (r, w), st) =>
            let sc := { sc with
                outputFD := w
                execute := some (getExecutionFunction name) }
            parseCmd sys chain fuel st (addSimpleCommand cmd sc)
              { initSimpleCommand with inputFD := r } rest
    else if t = ">" ∨ t = ">>" then
      match sc.commandName with
      | none => .fail (failAll st chain cmd)
      | some _ =>
        if sc.outputFD ≠ 1 then .fail (failAll st chain cmd)
        else
          let mode := if t = ">>" then OpenMode.appendCreate
            else OpenMode.truncCreate
          match scanFile rest with
          | (fn, rest') =>
            match openCall sys st fn mode with
            | (none, st) => .fail (failAll st chain cmd)
            | (some fd, st) =>
              parseCmd sys chain fuel st cmd { sc with outputFD := fd } rest'
    else if t = "<" then
      if sc.inputFD ≠ 0 then .fail (failAll st chain cmd)
      else
        match scanFile rest with
        | (fn, rest') =>
          match openCall sys st fn .readOnly with
          | (none, st) => .fail (failChainOnly st chain)
          | (some fd, st) =>
            parseCmd sys chain fuel st cmd { sc with inputFD := fd } rest'
    else if t = "2>" then
      if sc.stderrFD ≠ 2 then .fail (failAll st chain cmd)
      else
        match scanFile rest with
        | (fn, rest') =>
          match openCall sys st fn .truncCreate with
          | (none, st) => .fail (failChainOnly st chain)
          | (some fd, st) =>
            parseCmd sys chain fuel st cmd { sc with stderrFD := fd } rest'
    else if ignorable t then parseCmd sys chain fuel st cmd sc rest
    else if sc.commandName = none ∧ t.data.head? = some '!' ∧ 1 < t.length then
      parseCmd sys chain fuel st cmd
        (pushArgs (t.drop 1) (pushArgs "history" sc)) rest
    else
      match sys.globResult (removeQuotes t) with
      | none => .fail (failAll st chain cmd)
      | some paths =>
        parseCmd sys chain fuel st cmd
          (paths.foldl (fun s a => pushArgs a s) sc) rest

/-- The outer loop of `parseTokens` (`utils.c` lines 169-441): one Command
per iteration.  After the inner loop the pending SimpleCommand is finalized
into the command iff it has a name, the chaining operator is COPY'd from the
current token (NULL at the end of the tokens), the background flag is set
from it, and the command is appended to the chain unconditionally. -/
def parseChain (sys : Sys) :
    Nat → PState → List Command → List String → Option (List Command) × PState
  | 0, st, _, _ => (none, st)
  | _ + 1, st, chain, [] => (some chain, st)
  | fuel + 1, st, chain, t :: ts =>
    match parseCmd sys chain (fuel + 1) st initCommand initSimpleCommand (t :: ts) with
    | .fail st => (none, st)
    | .ok cmd sc rest st =>
      let cmd :=
        match sc.commandName with
        | some name =>
          addSimpleCommand cmd { sc with execute := some (getExecutionFunction name) }
        | none => cmd
      let chOp := rest.head?.map COPY
      let cmd := { cmd with
          chainingOperator := chOp
          background := decide (chOp = some "&") }
      let chain := chain ++ [cmd]
      match rest with
      | [] => (some chain, st)
      | _ :: rest' => parseChain sys fuel st chain rest'

/-- `parseTokens` from `utils.c` on a NULL-terminated token array (modelled
as the list of its non-NULL entries), against the system-call oracle `sys`:
the resulting chain (`none` = the NULL sentinel result) and the final OS
state with its event trace.  The initial chain allocation is assumed to
succeed. -/
def parseTokens (sys : Sys) (tokens : List String) :
    Option (List Command) × PState :=
  parseChain sys (tokens.length + 1) initPState [] tokens

/-- An oracle on which every pipe and open call succeeds and every glob
expansion finds no match, so GLOB_NOCHECK keeps the literal pattern. -/
def sysOK : Sys :=
  { pipeOk := fun _ => true
    openOk := fun _ _ => true
    globResult := fun s => some [s] }

/-- Oracle for the C3 counterexample: pipes succeed, only the file `g` can be
opened, glob expansions find no match and keep the literal pattern. -/
def sysC3 : Sys :=
  { pipeOk := fun _ => true
    openOk := fun f _ => decide (f = "g")
    globResult := fun s => some [s] }

/-- The filename search of the redirection branches as it runs over the C
token array, with the redirection operator at index `i`: each step reads
`tokens[++i]` (index `tokens.length` is the NULL terminator of the array) and
keeps skipping while the token is ignorable; IGNORE(NULL) is false, so the
loop stops at the terminator.  Returns the token found (`none` = the NULL
pointer) and the final value of the index.  The fuel argument only serves
termination. -/
def scanIdx (tokens : List String) : Nat → Nat → Option String × Nat
  | i, 0 => (none, i)
  | i, fuel + 1 =>
    match tokens[i + 1]? with
    | none => (none, i + 1)
    | some t =>
      if ignorable t then scanIdx tokens (i + 1) fuel else (some t, i + 1)

theorem execSimples_first_fail (run : SimpleCommand → Int) (background : Bool)
    (pre : List SimpleCommand) (x : SimpleCommand) (suf : List SimpleCommand)
    (hpre : ∀ sc ∈ pre, (adjustNoWait background sc).commandName ≠ none ∧
      run (adjustNoWait background sc) = 0)
    (hx : (adjustNoWait background x).commandName ≠ none)
    (hfail : run (adjustNoWait background x) ≠ 0) :
    ∀ k, execSimples run background k (pre ++ x :: suf) =
      (run (adjustNoWait background x), List.range' k (pre.length + 1),
        pre.map (fun sc => closeList (adjustNoWait background sc)) |>.flatten) := by
  induction pre with
  | nil =>
    intro k
    obtain ⟨nm, hnm⟩ := Option.ne_none_iff_exists'.mp hx
    simp [execSimples, hnm, hfail, List.range']
  | cons a pre ih =>
    intro k
    obtain ⟨ha, hrun⟩ := hpre a (by simp)
    obtain ⟨nm, hnm⟩ := Option.ne_none_iff_exists'.mp ha
    have ih' := ih (fun sc hsc => hpre sc (by simp [hsc])) (k + 1)
    simp [execSimples, hnm, hrun, ih', List.range']

/-- Claim C1: for every Command, when a SimpleCommand's handler returns a
non-zero status (and every earlier stage had a command name and reported
zero), `executeCommand` returns exactly that non-zero status, the invoked
stages are exactly `0 … i` where `i` is the failing stage's index, and in
particular no later stage of the same Command is invoked. -/
theorem executeCommand_pipeline_short_circuit (run : SimpleCommand → Int)
    (command : Command) (pre : List SimpleCommand) (x : SimpleCommand)
    (suf : List SimpleCommand)
    (hcmd : command.simpleCommands = pre ++ x :: suf)
    (hpre : ∀ sc ∈ pre, (adjustNoWait command.background sc).commandName ≠ none ∧
      run (adjustNoWait command.background sc) = 0)
    (hx : (adjustNoWait command.background x).commandName ≠ none)
    (hfail : run (adjustNoWait command.background x) ≠ 0) :
    (executeCommand run command).1 = run (adjustNoWait command.background x) ∧
      (executeCommand run command).2.1 = List.range (pre.length + 1) ∧
      ∀ j, pre.length < j → j ∉ (executeCommand run command).2.1 := by
  have hmain := execSimples_first_fail run command.background pre x suf hpre hx hfail 0
  have hne : ¬ command.simpleCommands.isEmpty := by
    simp [hcmd]
  rw [executeCommand, if_neg hne, hcmd, hmain, List.range_eq_range']
  refine ⟨rfl, rfl, ?_⟩
  intro j hj hmem
  have hmem' : j < pre.length + 1 := by simpa using hmem
  omega

/-- Witness for C1: in the pipeline `a | b` where the handler of `a` reports
7, the command's result is 7 and only stage 0 was invoked. -/
theorem executeCommand_pipeline_short_circuit_witness :
    (executeCommand c1run c1cmd).1 = 7 ∧
      (executeCommand c1run c1cmd).2.1 = [0] := by
  have h := executeCommand_pipeline_short_circuit c1run c1cmd
    [] (namedSC "a") [namedSC "b"]
    rfl (by intro sc hsc; simp at hsc) (by decide) (by decide)
  exact ⟨h.1.trans (by decide), by simpa using h.2.1⟩

theorem execChainAux_executes_all (run : SimpleCommand → Int)
    (chain : List Command) :
    ∀ k lastStatus, (execChainAux run k lastStatus chain).2 =
      List.range' k chain.length := by
  induction chain with
  | nil => intro k lastStatus; simp [execChainAux]
  | cons c rest ih =>
    intro k lastStatus
    simp [execChainAux, ih, List.range']

theorem execChainAux_last_status (run : SimpleCommand → Int)
    (chain : List Command) (c : Command) (hlast : chain.getLast? = some c) :
    ∀ k lastStatus, (execChainAux run k lastStatus chain).1 =
      (executeCommand run c).1 := by
  induction chain with
  | nil => simp at hlast
  | cons a rest ih =>
    intro k lastStatus
    cases rest with
    | nil =>
      simp at hlast
      subst hlast
      simp [execChainAux]
    | cons b rest' =>
      have hlast' : (b :: rest').getLast? = some c := by
        simpa [List.getLast?_cons_cons] using hlast
      have hstep : (execChainAux run k lastStatus (a :: b :: rest')).1 =
          (execChainAux run (k + 1) (executeCommand run a).1 (b :: rest')).1 := rfl
      rw [hstep, ih hlast']

/-- Claim C2: `executeCommandChain` executes every Command of the chain in
order regardless of the statuses reported along the way (the executed indices
are exactly `0 … n-1` for every status oracle `run`), and its result is the
status of the most recently executed Command. -/
theorem executeCommandChain_runs_all (run : SimpleCommand → Int)
    (chain : List Command) (c : Command) (hlast : chain.getLast? = some c) :
    (executeCommandChain run chain).2 = List.range chain.length ∧
      (executeCommandChain run chain).1 = (executeCommand run c).1 := by
  constructor
  · rw [executeCommandChain, execChainAux_executes_all, List.range_eq_range']
  · exact execChainAux_last_status run chain c hlast 0 0

/-- Witness for C2: for the chain `badcmd ; echo` where `badcmd`'s handler
reports 3, both commands execute (indices `[0, 1]`) and the chain's result is
the second command's status 0. -/
theorem executeCommandChain_runs_all_witness :
    (executeCommandChain c2run c2chain).2 = [0, 1] ∧
      (executeCommandChain c2run c2chain).1 = 0 := by
  have h := executeCommandChain_runs_all c2run c2chain (soloCmd "echo" none)
    (by decide)
  exact ⟨by simpa using h.1, h.2.trans (by decide)⟩

/-- Claim C4 (code evaluation at the failing input): when the handler of the
fixture stage reports 1, `executeCommand` returns before closing anything
(the closed list is empty, leaking descriptor 5); when the handler reports 0,
the executor closes descriptor 5 once but never closes the stderr
descriptor 7.  This contradicts the claim that all non-standard descriptors
are closed whether the status is zero or non-zero. -/
theorem executeCommand_close_behavior :
    executeCommand (fun _ => 1) c4cmd = (1, [0], []) ∧
      executeCommand (fun _ => 0) c4cmd = (0, [0], [5]) := by
  decide

/-- Claim C7 (code evaluation at the failing input): on the one-entry history
`["ls"]`, index 0 passes the guard (`0 > size` is false and the head is
non-NULL), the walk runs off the end of the list, and the final
`curr->command` dereferences NULL (`Except.error ()`) instead of returning
the absent result the claim (and the function's own doc comment) promise.
In-range indices and too-large indices behave as the claim says. -/
theorem get_command_index_zero_crashes :
    get_command ["ls"] 0 = .error () ∧
      get_command ["ls", "pwd"] 1 = .ok (some "ls") ∧
      get_command ["ls", "pwd"] 2 = .ok (some "pwd") ∧
      get_command ["ls", "pwd"] 3 = .ok none ∧
      get_command [] 0 = .ok none :=
  ⟨rfl, rfl, rfl, rfl, rfl⟩

theorem COPY_length (s : String) :
    (COPY s).length = min MAX_STRING_LENGTH s.length := by
  show (s.data.take MAX_STRING_LENGTH).length = min MAX_STRING_LENGTH s.length
  rw [List.length_take]
  rfl

theorem COPY_of_length_le (s : String) (h : s.length ≤ MAX_STRING_LENGTH) :
    COPY s = s := by
  show String.mk (s.data.take MAX_STRING_LENGTH) = s
  rw [List.take_of_length_le h]

theorem bigArg_length : bigArg.length = 1025 := by
  show (List.replicate 1025 'a').length = 1025
  rw [List.length_replicate]

theorem COPY_bigArg_ne : COPY bigArg ≠ bigArg := by
  intro h
  have h2 := congrArg String.length h
  rw [COPY_length, bigArg_length] at h2
  unfold MAX_STRING_LENGTH at h2
  omega

/-- Counterexample for C8: pushing the 1025-character string `bigArg` onto a
fresh SimpleCommand does not store the string itself followed by the
sentinel — it stores the 1024-character truncation — so the claim fails for
strings longer than MAX_STRING_LENGTH. -/
theorem pushArgs_truncates :
    (pushArgs bigArg initSimpleCommand).args ≠ [some bigArg, none] := by
  intro h
  have h0 : (pushArgs bigArg initSimpleCommand).args
      = [some (COPY bigArg), none] := rfl
  rw [h0] at h
  injection h with h1 h2
  injection h1 with h3
  exact COPY_bigArg_ne h3

/-- Claim C8 as amended: `pushArgs` stores an owned copy of the first
`min 1024 (length)` characters of the provided string (`strndup` with
MAX_STRING_LENGTH) at index `argc`, bumping the count; the stored copy equals
the provided string in full exactly when the string has at most 1024
characters.  (Non-aliasing of the caller's buffer is a memory-layout property
with no counterpart in this value-level embedding; the stored value is a copy
by construction.) -/
theorem pushArgs_stores_copy (arg : String) (sc : SimpleCommand) :
    (pushArgs arg sc).args[sc.argc]? = some (some (COPY arg)) ∧
      (pushArgs arg sc).argc = sc.argc + 1 ∧
      (arg.length ≤ MAX_STRING_LENGTH → COPY arg = arg) := by
  refine ⟨?_, rfl, COPY_of_length_le arg⟩
  have hlen : sc.argc <
      (sc.args ++ List.replicate (sc.argc + 2 - sc.args.length) none).length := by
    rw [List.length_append, List.length_replicate]
    omega
  show (((sc.args ++ List.replicate (sc.argc + 2 - sc.args.length) none).set
      sc.argc (some (COPY arg))).set (sc.argc + 1) none)[sc.argc]?
      = some (some (COPY arg))
  rw [List.getElem?_set_ne (by omega)]
  exact List.getElem?_set_self hlen

/-- Witness for C8 (amended): pushing `"hi"` onto a fresh SimpleCommand
stores exactly `"hi"` at index 0 and sets the count to 1. -/
theorem pushArgs_stores_copy_witness :
    (pushArgs "hi" initSimpleCommand).args[0]? = some (some "hi") ∧
      (pushArgs "hi" initSimpleCommand).argc = 1 := by
  have h := pushArgs_stores_copy "hi" initSimpleCommand
  have hc : COPY "hi" = "hi" := h.2.2 (by decide)
  rw [hc] at h
  exact ⟨h.1, h.2.1⟩

/-- `List.set` across an append, at an index past the left part. -/
theorem set_append_add (l ys : List (Option String)) (n : Nat) (v : Option String) :
    (l ++ ys).set (l.length + n) v = l ++ ys.set n v := by
  induction l with
  | nil => simp
  | cons a t ih => simpa [Nat.succ_add] using ih

/-- One `pushArgs` call on a well-formed argument array `l ++ [none]` with
`argc = l.length`: the copy lands in the old sentinel slot and a new sentinel
is appended; the name is set from the copy only on the first push. -/
theorem pushArgs_step (a : String) (sc : SimpleCommand) (l : List (Option String))
    (hargs : sc.args = l ++ [none]) (hc : sc.argc = l.length) :
    (pushArgs a sc).args = l ++ [some (COPY a), none] ∧
      (pushArgs a sc).argc = l.length + 1 ∧
      (pushArgs a sc).commandName =
        (if l.length + 1 = 1 then some (COPY a) else sc.commandName) := by
  refine ⟨?_, ?_, ?_⟩
  · show ((sc.args ++ List.replicate (sc.argc + 2 - sc.args.length) none).set
        sc.argc (some (COPY a))).set (sc.argc + 1) none
        = l ++ [some (COPY a), none]
    rw [hargs, hc]
    have hrep : l.length + 2 - (l ++ [none]).length = 1 := by simp
    rw [hrep]
    have h1 : (l ++ [none]) ++ List.replicate 1 none = l ++ [none, none] := by simp
    rw [h1]
    have h2 : (l ++ [none, none]).set l.length (some (COPY a))
        = l ++ [some (COPY a), none] := by
      simpa using set_append_add l [none, none] 0 (some (COPY a))
    rw [h2]
    simpa using set_append_add l [some (COPY a), none] 1 none
  · show sc.argc + 1 = l.length + 1
    rw [hc]
  · show (if sc.argc + 1 = 1 then some (COPY a) else sc.commandName) = _
    rw [hc]

/-- Folding `pushArgs` over further arguments from a well-formed non-empty
argument array: entries accumulate in order, the sentinel stays last, the
count tracks the entries, and the command name never changes after the first
argument. -/
theorem foldl_pushArgs (ts : List String) :
    ∀ (sc : SimpleCommand) (l : List (Option String)),
      sc.args = l ++ [none] → sc.argc = l.length → l ≠ [] →
      (ts.foldl (fun s a => pushArgs a s) sc).args
          = l ++ ts.map (fun a => some (COPY a)) ++ [none] ∧
        (ts.foldl (fun s a => pushArgs a s) sc).argc = l.length + ts.length ∧
        (ts.foldl (fun s a => pushArgs a s) sc).commandName = sc.commandName := by
  induction ts with
  | nil =>
    intro sc l h1 h2 _
    simpa using ⟨h1, h2⟩
  | cons a ts ih =>
    intro sc l h1 h2 h3
    have hstep := pushArgs_step a sc l h1 h2
    have hlz : l.length ≠ 0 := by
      intro hz
      exact h3 (List.eq_nil_of_length_eq_zero hz)
    have hname : (pushArgs a sc).commandName = sc.commandName := by
      rw [hstep.2.2, if_neg (by omega)]
    have ihl := ih (pushArgs a sc) (l ++ [some (COPY a)])
      (by rw [hstep.1]; simp)
      (by rw [hstep.2.1]; simp)
      (by simp)
    refine ⟨?_, ?_, ?_⟩
    · show (ts.foldl (fun s a => pushArgs a s) (pushArgs a sc)).args = _
      rw [ihl.1]
      simp
    · show (ts.foldl (fun s a => pushArgs a s) (pushArgs a sc)).argc = _
      rw [ihl.2.1]
      simp
      omega
    · show (ts.foldl (fun s a => pushArgs a s) (pushArgs a sc)).commandName = _
      rw [ihl.2.2, hname]

/-- Counterexample for C9: pushing the single 1025-character argument
`bigArg` leaves a command name equal to its 1024-character truncation, not to
the pushed argument itself, falsifying "the command name equals the first
pushed argument" (and likewise "the first argc entries are exactly the pushed
arguments") for over-long strings. -/
theorem buildSC_name_truncated :
    (buildSC [bigArg]).commandName ≠ some bigArg := by
  intro h
  have h0 : (buildSC [bigArg]).commandName = some (COPY bigArg) := rfl
  rw [h0] at h
  injection h with h1
  exact COPY_bigArg_ne h1

/-- Claim C9 as amended: for every non-empty sequence of `pushArgs` calls on
a fresh SimpleCommand, the argument array is the pushed arguments' COPYs (the
1024-character truncations, which coincide with the arguments themselves for
lengths ≤ 1024) in order, terminated by the NULL sentinel at position `argc`;
the count equals the number of pushed arguments and the command name is the
COPY of the first pushed argument. -/
theorem buildSC_invariants (ts : List String) (h : ts ≠ []) :
    (buildSC ts).argc = ts.length ∧
      (buildSC ts).args = ts.map (fun a => some (COPY a)) ++ [none] ∧
      (buildSC ts).args[(buildSC ts).argc]? = some none ∧
      (buildSC ts).commandName = ts.head?.map COPY := by
  match ts, h with
  | a :: ts, _ =>
    have hfirst : (pushArgs a initSimpleCommand).args
        = [some (COPY a)] ++ [none] := rfl
    have hfc : (pushArgs a initSimpleCommand).argc = 1 := rfl
    have hres := foldl_pushArgs ts (pushArgs a initSimpleCommand)
      [some (COPY a)] hfirst hfc (by simp)
    have hargs : (buildSC (a :: ts)).args
        = (a :: ts).map (fun a => some (COPY a)) ++ [none] := by
      show (ts.foldl (fun s a => pushArgs a s) (pushArgs a initSimpleCommand)).args = _
      rw [hres.1]
      simp
    have hargc : (buildSC (a :: ts)).argc = (a :: ts).length := by
      show (ts.foldl (fun s a => pushArgs a s) (pushArgs a initSimpleCommand)).argc = _
      rw [hres.2.1]
      simp
      omega
    refine ⟨hargc, hargs, ?_, ?_⟩
    · rw [hargs, hargc]
      have hlen : ((a :: ts).map (fun a => some (COPY a))).length = (a :: ts).length := by
        simp
      rw [List.getElem?_append_right (by omega)]
      simp [hlen]
    · show (ts.foldl (fun s a => pushArgs a s) (pushArgs a initSimpleCommand)).commandName = _
      rw [hres.2.2]
      rfl

/-- Witness for C9 (amended): pushing `["echo", "hi"]` yields count 2, the
array `[echo, hi, NULL]`, the sentinel at position 2, and name `echo`. -/
theorem buildSC_invariants_witness :
    (buildSC ["echo", "hi"]).argc = 2 ∧
      (buildSC ["echo", "hi"]).args = [some "echo", some "hi", none] ∧
      (buildSC ["echo", "hi"]).args[(buildSC ["echo", "hi"]).argc]? = some none ∧
      (buildSC ["echo", "hi"]).commandName = some "echo" := by
  have h := buildSC_invariants ["echo", "hi"] (by simp)
  refine ⟨h.1, ?_, h.2.2.1, ?_⟩
  · rw [h.2.1]
    rfl
  · rw [h.2.2.2]
    rfl

/-- Claim C5: parsing `a | b | c` (with pipes succeeding and no glob
matches, so patterns stay literal) yields exactly one Command with exactly
three SimpleCommands; stage 0's output descriptor is the write end of the
first created pipe whose read end is stage 1's input descriptor, and
likewise stage 1's output / stage 2's input for the second pipe. -/
theorem parseTokens_three_stage_pipeline :
    ∃ cmd st s0 s1 s2 p q,
      parseTokens sysOK ["a", "|", "b", "|", "c"] = (some [cmd], st) ∧
      cmd.nSimpleCommands = 3 ∧
      cmd.simpleCommands = [s0, s1, s2] ∧
      st.pipes = [p, q] ∧
      s0.outputFD = p.2 ∧ s1.inputFD = p.1 ∧
      s1.outputFD = q.2 ∧ s2.inputFD = q.1 :=
  ⟨_, _, _, _, _, (3, 4), (5, 6), rfl, rfl, rfl, rfl, rfl, rfl, rfl, rfl⟩

theorem string_ne_empty_length (s : String) (h : s ≠ "") : 0 < s.length := by
  show 0 < s.data.length
  refine List.length_pos.mpr fun hnil => h (String.ext ?_)
  rw [hnil]

theorem bang_data (s : String) : ("!" ++ s).data = '!' :: s.data := rfl

theorem bang_ne_lit (s : String) (x : String) (hx : x.data.head? ≠ some '!') :
    "!" ++ s ≠ x := by
  intro h
  apply hx
  rw [← h, bang_data]
  rfl

/-- Claim C6: a token `!s` (with `s` non-empty) in first-argument position
(no command name, no arguments yet) makes the parser continue with exactly
two `pushArgs` calls — `"history"` and then the suffix `s` itself, not its
quote-stripped or glob-expanded form, and with no re-tokenization — leaving
a SimpleCommand whose command name is `history` with two arguments. -/
theorem parseCmd_history_bang (sys : Sys) (chain : List Command) (fuel : Nat)
    (st : PState) (cmd : Command) (sc : SimpleCommand) (s : String)
    (rest : List String) (hname : sc.commandName = none) (hargc : sc.argc = 0)
    (hs : s ≠ "") :
    parseCmd sys chain (fuel + 1) st cmd sc (("!" ++ s) :: rest) =
      parseCmd sys chain fuel st cmd (pushArgs s (pushArgs "history" sc)) rest ∧
      (pushArgs s (pushArgs "history" sc)).commandName = some "history" ∧
      (pushArgs s (pushArgs "history" sc)).argc = 2 := by
  have hne1 : ¬("!" ++ s = "&" ∨ "!" ++ s = ";") := by
    rintro (h | h)
    · exact bang_ne_lit s "&" (by decide) h
    · exact bang_ne_lit s ";" (by decide) h
  have hne2 : "!" ++ s ≠ "|" := bang_ne_lit s "|" (by decide)
  have hne3 : ¬("!" ++ s = ">" ∨ "!" ++ s = ">>") := by
    rintro (h | h)
    · exact bang_ne_lit s ">" (by decide) h
    · exact bang_ne_lit s ">>" (by decide) h
  have hne4 : "!" ++ s ≠ "<" := bang_ne_lit s "<" (by decide)
  have hne5 : "!" ++ s ≠ "2>" := bang_ne_lit s "2>" (by decide)
  have hne6 : ¬ignorable ("!" ++ s) := by
    unfold ignorable
    rintro (h | h | h | h)
    · exact bang_ne_lit s " " (by decide) h
    · exact bang_ne_lit s "\t" (by decide) h
    · exact bang_ne_lit s "\n" (by decide) h
    · exact bang_ne_lit s "" (by decide) h
  have hhead : ("!" ++ s).data.head? = some '!' := by rw [bang_data]; rfl
  have hlen : 1 < ("!" ++ s).length := by
    show 1 < ('!' :: s.data).length
    have h0 : 0 < s.data.length := string_ne_empty_length s hs
    rw [List.length_cons]
    omega
  have hdrop : ("!" ++ s).drop 1 = s := by
    apply String.ext
    rw [String.data_drop, bang_data]
    rfl
  have hcond : sc.commandName = none ∧ ("!" ++ s).data.head? = some '!' ∧
      1 < ("!" ++ s).length := ⟨hname, hhead, hlen⟩
  have hstep : parseCmd sys chain (fuel + 1) st cmd sc (("!" ++ s) :: rest) =
      parseCmd sys chain fuel st cmd
        (pushArgs (("!" ++ s).drop 1) (pushArgs "history" sc)) rest := by
    show (if "!" ++ s = "&" ∨ "!" ++ s = ";" then InnerOut.ok cmd sc (("!" ++ s) :: rest) st
      else _) = _
    rw [if_neg hne1]
    rw [if_neg hne2, if_neg hne3, if_neg hne4, if_neg hne5, if_neg hne6,
      if_pos hcond]
  refine ⟨by rw [hstep, hdrop], ?_, by show sc.argc + 1 + 1 = 2; omega⟩
  show (if (pushArgs "history" sc).argc + 1 = 1 then some (COPY s)
    else (pushArgs "history" sc).commandName) = some "history"
  rw [if_neg (by show ¬(sc.argc + 1 + 1 = 1); omega)]
  show (if sc.argc + 1 = 1 then some (COPY "history") else sc.commandName)
    = some "history"
  rw [if_pos (by omega)]
  rfl

/-- Witness for C6: parsing the single token `!3` from a fresh state steps to
two pushes producing a `history` invocation with name `history` and two
arguments. -/
theorem parseCmd_history_bang_witness :
    parseCmd sysOK [] 1 initPState initCommand initSimpleCommand ["!3"] =
      parseCmd sysOK [] 0 initPState initCommand
        (pushArgs "3" (pushArgs "history" initSimpleCommand)) [] ∧
      (pushArgs "3" (pushArgs "history" initSimpleCommand)).commandName
        = some "history" ∧
      (pushArgs "3" (pushArgs "history" initSimpleCommand)).argc = 2 :=
  parseCmd_history_bang sysOK [] 0 initPState initCommand initSimpleCommand
    "3" [] rfl rfl (by decide)

/-- Counterexample for C3: on `a > g 2> f` where opening `g` succeeds
(descriptor 3) and opening `f` fails, `parseTokens` does return the NULL
sentinel, but the only release event is the chain's — the partially built
Command and SimpleCommand are never freed and the already-opened descriptor 3
is never closed.  Moreover a chaining operator with no preceding command name
(the token list `;`) is not treated as malformed at all: parsing succeeds
with a Command containing zero SimpleCommands instead of aborting with
NULL. -/
theorem parseTokens_abort_leaks :
    (parseTokens sysC3 ["a", ">", "g", "2>", "f"]).1 = none ∧
      Ev.openedFD 3 ∈ (parseTokens sysC3 ["a", ">", "g", "2>", "f"]).2.trace ∧
      Ev.freeCommand ∉ (parseTokens sysC3 ["a", ">", "g", "2>", "f"]).2.trace ∧
      Ev.freeSimple ∉ (parseTokens sysC3 ["a", ">", "g", "2>", "f"]).2.trace ∧
      Ev.closedFD 3 ∉ (parseTokens sysC3 ["a", ">", "g", "2>", "f"]).2.trace ∧
      (parseTokens sysOK [";"]).1 ≠ none := by
  decide

/-- Claim C3 as amended: a pipe (or output-redirection) operator with no
preceding command name aborts the parse with the full cleanup epilogue
(chain, Command, SimpleCommand — but no descriptor close); an input
redirection whose `open` fails aborts with the chain-only epilogue, leaving
the current Command and SimpleCommand (and every already-opened descriptor)
unreleased; a chaining operator with no preceding command name is not an
error at all; and an inner-loop failure makes `parseTokens` return the NULL
sentinel, never a partially built chain. -/
theorem parseTokens_error_policy (sys : Sys) (chain : List Command)
    (fuel : Nat) (st : PState) (cmd : Command) (sc : SimpleCommand) :
    (∀ rest, sc.commandName = none →
      parseCmd sys chain (fuel + 1) st cmd sc ("|" :: rest)
        = .fail (failAll st chain cmd)) ∧
    (∀ rest fn rest' st2, sc.inputFD = 0 → scanFile rest = (fn, rest') →
      openCall sys st fn .readOnly = (none, st2) →
      parseCmd sys chain (fuel + 1) st cmd sc ("<" :: rest)
        = .fail (failChainOnly st2 chain)) ∧
    (∀ rest, parseCmd sys chain (fuel + 1) st cmd sc (";" :: rest)
        = .ok cmd sc (";" :: rest) st) ∧
    (∀ tokens st', tokens ≠ [] →
      parseCmd sys chain (fuel + 1) st initCommand initSimpleCommand tokens
        = .fail st' →
      parseChain sys (fuel + 1) st chain tokens = (none, st')) := by
  refine ⟨?_, ?_, ?_, ?_⟩
  · intro rest h
    simp [parseCmd, h]
  · intro rest fn rest' st2 h0 hscan hopen
    simp [parseCmd, h0, hscan, hopen]
  · intro rest
    simp [parseCmd]
  · intro tokens st' hne hfail
    cases tokens with
    | nil => exact absurd rfl hne
    | cons t ts => simp [parseChain, hfail]

/-- Witness for C3 (amended): concrete instances of all four conjuncts — a
pipe with no command name on `["|"]`, a failing input-redirection open on
`["<", "f"]` under `sysC3`, the non-error `[";"]` step, and the NULL result
of `parseTokens`-level propagation. -/
theorem parseTokens_error_policy_witness :
    parseCmd sysC3 [] 1 initPState initCommand initSimpleCommand ["|"]
        = .fail (failAll initPState [] initCommand) ∧
      parseCmd sysC3 [] 1 initPState initCommand initSimpleCommand ["<", "f"]
        = .fail (failChainOnly
            { initPState with
                trace := [Ev.openCalled (some "f") OpenMode.readOnly] } []) ∧
      parseCmd sysC3 [] 1 initPState initCommand initSimpleCommand [";"]
        = .ok initCommand initSimpleCommand [";"] initPState ∧
      parseChain sysC3 1 initPState [] ["|"]
        = (none, failAll initPState [] initCommand) := by
  have h := parseTokens_error_policy sysC3 [] 0 initPState initCommand
    initSimpleCommand
  refine ⟨h.1 [] rfl, ?_, h.2.2.1 [], h.2.2.2 ["|"] _ (by decide) (h.1 [] rfl)⟩
  exact h.2.1 ["f"] (some "f") []
    { initPState with trace := [Ev.openCalled (some "f") OpenMode.readOnly] }
    rfl (by decide) (by decide)

theorem scanIdx_le (tokens : List String) :
    ∀ fuel i, i < tokens.length → (scanIdx tokens i fuel).2 ≤ tokens.length := by
  intro fuel
  induction fuel with
  | zero =>
    intro i hi
    exact le_of_lt hi
  | succ fuel ih =>
    intro i hi
    cases htok : tokens[i + 1]? with
    | none =>
      have hle : tokens.length ≤ i + 1 := List.getElem?_eq_none_iff.mp htok
      simp [scanIdx, htok]
      omega
    | some t =>
      have hlt : i + 1 < tokens.length := by
        by_contra hge
        rw [List.getElem?_eq_none_iff.mpr (by omega)] at htok
        cases htok
      by_cases hig : ignorable t
      · simpa [scanIdx, htok, hig] using ih (i + 1) hlt
      · simp [scanIdx, htok, hig]
        omega

theorem scanIdx_eq_scanFile (tokens : List String) :
    ∀ fuel i, tokens.length ≤ i + 1 + fuel →
      (scanIdx tokens i fuel).1 = (scanFile (tokens.drop (i + 1))).1 ∧
      (scanFile (tokens.drop (i + 1))).2
        = tokens.drop ((scanIdx tokens i fuel).2 + 1) := by
  intro fuel
  induction fuel with
  | zero =>
    intro i hi
    have hdrop : tokens.drop (i + 1) = [] := List.drop_eq_nil_of_le (by omega)
    simp [scanIdx, scanFile, hdrop]
  | succ fuel ih =>
    intro i hi
    cases htok : tokens[i + 1]? with
    | none =>
      have hle : tokens.length ≤ i + 1 := List.getElem?_eq_none_iff.mp htok
      have hdrop : tokens.drop (i + 1) = [] := List.drop_eq_nil_of_le hle
      have hdrop2 : tokens.drop (i + 1 + 1) = [] :=
        List.drop_eq_nil_of_le (by omega)
      simp [scanIdx, htok, scanFile, hdrop, hdrop2]
    | some t =>
      have hlt : i + 1 < tokens.length := by
        by_contra hge
        rw [List.getElem?_eq_none_iff.mpr (by omega)] at htok
        cases htok
      have hcons : tokens.drop (i + 1) = t :: tokens.drop (i + 1 + 1) := by
        rw [List.drop_eq_getElem_cons hlt]
        rw [List.getElem_eq_iff.mpr htok]
      by_cases hig : ignorable t
      · have ihl := ih (i + 1) (by omega)
        constructor
        · simpa [scanIdx, htok, hig, hcons, scanFile] using ihl.1
        · simpa [scanIdx, htok, hig, hcons, scanFile] using ihl.2
      · simp [scanIdx, htok, hig, hcons, scanFile]

theorem scanFile_all_ignorable :
    ∀ rest, (∀ t ∈ rest, ignorable t) → scanFile rest = (none, []) := by
  intro rest
  induction rest with
  | nil => intro _; rfl
  | cons t ts ih =>
    intro h
    show (if ignorable t then scanFile ts else (some t, ts)) = (none, [])
    rw [if_pos (h t (by simp))]
    exact ih fun u hu => h u (by simp [hu])

/-- Claim C10 as amended: the filename search after a redirection operator at
index `i` stays within the bounds of the NULL-terminated token array (the
final index never exceeds the terminator position `tokens.length`), and it
computes the same result as the parser's list-level search on the remaining
tokens; when everything after the operator is ignorable, the search yields
the NULL pointer; and `parseTokens` on a trailing redirection operator then
passes that NULL filename to `open` — it is the failure of that call, not a
prior filename check, that makes parsing report failure (return NULL). -/
theorem parseTokens_trailing_redirection :
    (∀ (tokens : List String) (fuel i : Nat), i < tokens.length →
      (scanIdx tokens i fuel).2 ≤ tokens.length) ∧
    (∀ (tokens : List String) (fuel i : Nat), tokens.length ≤ i + 1 + fuel →
      (scanIdx tokens i fuel).1 = (scanFile (tokens.drop (i + 1))).1) ∧
    (∀ rest, (∀ t ∈ rest, ignorable t) → scanFile rest = (none, [])) ∧
    (∀ op, op = ">" ∨ op = ">>" ∨ op = "<" ∨ op = "2>" →
      (parseTokens sysOK ["a", op]).1 = none ∧
      ∃ m, Ev.openCalled none m ∈ (parseTokens sysOK ["a", op]).2.trace) := by
  refine ⟨fun tokens => scanIdx_le tokens,
    fun tokens fuel i h => (scanIdx_eq_scanFile tokens fuel i h).1,
    scanFile_all_ignorable, ?_⟩
  rintro op (rfl | rfl | rfl | rfl)
  · exact ⟨by decide, OpenMode.truncCreate, by decide⟩
  · exact ⟨by decide, OpenMode.appendCreate, by decide⟩
  · exact ⟨by decide, OpenMode.readOnly, by decide⟩
  · exact ⟨by decide, OpenMode.truncCreate, by decide⟩

/-- Witness for C10 (amended): for the token array `a >` (operator at index
1, terminator at index 2) the search stops at index 2 with the NULL pointer,
in bounds; agrees with the list-level search; and the parse calls `open` with
the NULL pathname and returns the NULL sentinel. -/
theorem parseTokens_trailing_redirection_witness :
    (scanIdx ["a", ">"] 1 3).2 ≤ 2 ∧
      (scanIdx ["a", ">"] 1 3).1 = (scanFile (["a", ">"].drop 2)).1 ∧
      scanFile [" ", ""] = (none, []) ∧
      (parseTokens sysOK ["a", ">"]).1 = none ∧
      Ev.openCalled none OpenMode.truncCreate
        ∈ (parseTokens sysOK ["a", ">"]).2.trace := by
  have h := parseTokens_trailing_redirection
  refine ⟨h.1 ["a", ">"] 3 1 (by decide), h.2.1 ["a", ">"] 3 1 (by decide),
    h.2.2.1 [" ", ""] ?_, (h.2.2.2 ">" (by decide)).1, by decide⟩
  intro t ht
  simp at ht
  rcases ht with rfl | rfl
  · exact Or.inl rfl
  · exact Or.inr (Or.inr (Or.inr rfl))

/-- Counterexample for C10: on the token array `a >` (trailing output
redirection with no filename) `parseTokens` does NOT report a parse failure
instead of passing a NULL filename to the file-open call — the trace shows
`open` being invoked with the NULL pathname (and the parse then fails because
that call fails). -/
theorem parseTokens_null_filename_open :
    (parseTokens sysOK ["a", ">"]).1 = none ∧
      Ev.openCalled none OpenMode.truncCreate
        ∈ (parseTokens sysOK ["a", ">"]).2.trace := by
  decide

